import Mathlib

/-!
Verification of the concurrency primitives of the repository:
`src/lib/concurrency.ts` (Mutex, Semaphore, withMutex, withSemaphore)
and `src/lib/data-change-mutex.ts` (DataChangeMutex, defaultCompare).

The TypeScript classes are embedded as explicit state machines.  A
waiter (a `resolve` callback pushed on a wait queue) is modelled by a
natural-number identifier; `acquire` reports whether it resolved
synchronously, `release` reports which waiter (if any) it resumed.
-/

namespace Bdrax

/-! ## Definitions -/

/-- State of `Mutex`: the `locked` flag and the queue of pending
`resolve` callbacks (modelled by waiter identifiers, in queue order). -/
structure MutexState where
  locked : Bool
  waitQueue : List Nat
  deriving Repr, DecidableEq

/-- A fresh `new Mutex()`: unlocked, empty queue. -/
def MutexState.fresh : MutexState := ⟨false, []⟩

/-- `Mutex.acquire()`: if not locked, set `locked` and resolve
synchronously (result `true`); otherwise push the caller's resolver on
`waitQueue` and leave it suspended (result `false`). -/
def MutexState.acquire (s : MutexState) (w : Nat) : MutexState × Bool :=
  if s.locked then
    ({ s with waitQueue := s.waitQueue ++ [w] }, false)
  else
    ({ s with locked := true }, true)

/-- `Mutex.release()`: if the wait queue is non-empty, shift the first
waiter and resume it (the `locked` flag is not touched); otherwise clear
`locked`.  Returns the waiter that was resumed, if any. -/
def MutexState.release (s : MutexState) : MutexState × Option Nat :=
  match s.waitQueue with
  | r :: rest => ({ s with waitQueue := rest }, some r)
  | [] => ({ s with locked := false }, none)

/-- `Mutex.isLocked()`. -/
def MutexState.isLocked (s : MutexState) : Bool := s.locked

/-- Run a sequence of `acquire` calls (one per waiter id in `ws`),
collecting for each call whether it resolved synchronously. -/
def acquireSeq (s : MutexState) : List Nat → MutexState × List Bool
  | [] => (s, [])
  | w :: ws =>
    let p := s.acquire w
    let q := acquireSeq p.1 ws
    (q.1, p.2 :: q.2)

/-- Run `k` successive `release` calls, collecting the resumed waiters
in the order they were resumed. -/
def releaseSeq (s : MutexState) : Nat → MutexState × List Nat
  | 0 => (s, [])
  | k + 1 =>
    let p := s.release
    let q := releaseSeq p.1 k
    (q.1,
      match p.2 with
      | some r => r :: q.2
      | none => q.2)

/-- State of `Semaphore`: the current `permits` count and the queue of
pending `resolve` callbacks. -/
structure SemState where
  permits : Nat
  waitQueue : List Nat
  deriving Repr, DecidableEq

/-- `new Semaphore(permits)`. -/
def SemState.fresh (permits : Nat) : SemState := ⟨permits, []⟩

/-- `Semaphore.acquire()`: if permits remain, take one and resolve
synchronously; otherwise queue the caller's resolver. -/
def SemState.acquire (s : SemState) (w : Nat) : SemState × Bool :=
  if 0 < s.permits then
    ({ s with permits := s.permits - 1 }, true)
  else
    ({ s with waitQueue := s.waitQueue ++ [w] }, false)

/-- `Semaphore.release()`: if the wait queue is non-empty, shift and
resume the first waiter (permits untouched); otherwise increment
`permits`. -/
def SemState.release (s : SemState) : SemState × Option Nat :=
  match s.waitQueue with
  | r :: rest => ({ s with waitQueue := rest }, some r)
  | [] => ({ s with permits := s.permits + 1 }, none)

/-- `Semaphore.availablePermits()`. -/
def SemState.availablePermits (s : SemState) : Nat := s.permits

/-- Run a sequence of semaphore `acquire` calls, collecting whether
each resolved synchronously. -/
def semAcquireSeq (s : SemState) : List Nat → SemState × List Bool
  | [] => (s, [])
  | w :: ws =>
    let p := s.acquire w
    let q := semAcquireSeq p.1 ws
    (q.1, p.2 :: q.2)

/-- Run `k` successive semaphore `release` calls, collecting the
resumed waiters in order. -/
def semReleaseSeq (s : SemState) : Nat → SemState × List Nat
  | 0 => (s, [])
  | k + 1 =>
    let p := s.release
    let q := semReleaseSeq p.1 k
    (q.1,
      match p.2 with
      | some r => r :: q.2
      | none => q.2)

/-- One client-visible operation on a Semaphore: an `acquire()` call by
waiter `w`, or a `release()` call. -/
inductive SemOp where
  | acq (w : Nat)
  | rel
  deriving Repr, DecidableEq

/-- State transition of a single operation. -/
def semStep (s : SemState) : SemOp → SemState
  | .acq w => (s.acquire w).1
  | .rel => (s.release).1

/-- Run a sequence of operations. -/
def runSem (s : SemState) (ops : List SemOp) : SemState :=
  ops.foldl semStep s

/-- Number of `acquire()` calls in a sequence. -/
def acqCount (ops : List SemOp) : Nat :=
  ops.countP fun o => match o with | .acq _ => true | .rel => false

/-- Number of `release()` calls in a sequence. -/
def relCount (ops : List SemOp) : Nat :=
  ops.countP fun o => match o with | .acq _ => false | .rel => true

/-- The inductive invariant tying a reachable semaphore state to the
capacity `C` and the number of acquires `a` and releases `r` performed:
a non-empty queue forces zero permits, and permit/queue bookkeeping
balances. -/
def SemInv (C a r : Nat) (s : SemState) : Prop :=
  (s.waitQueue ≠ [] → s.permits = 0)
  ∧ s.permits + a = C + r + s.waitQueue.length

/-- `withMutex(key, fn)` in its uncontended synchronous execution:
acquire the named mutex, run `fn` (a computation that either returns a
value or throws, modelled as `Except`), and release in a `finally`
block; `fn`'s outcome is returned unchanged. -/
def withMutexRun {E A : Type} (s : MutexState) (w : Nat) (fn : Except E A) :
    MutexState × Except E A :=
  let a := s.acquire w
  let r := a.1.release
  (r.1, fn)

/-- `withSemaphore(key, fn)` in its uncontended synchronous execution. -/
def withSemaphoreRun {E A : Type} (s : SemState) (w : Nat) (fn : Except E A) :
    SemState × Except E A :=
  let a := s.acquire w
  let r := a.1.release
  (r.1, fn)

/-- State of `DataChangeMutex<T>`: the inherited `Mutex` state plus the
stored baseline `lastData : T | null` (absent modelled as `none`). -/
structure DCMState (T : Type) where
  mutex : MutexState
  lastData : Option T
  deriving Repr, DecidableEq

/-- A fresh `new DataChangeMutex()`. -/
def DCMState.fresh (T : Type) : DCMState T := ⟨MutexState.fresh, none⟩

/-- `DataChangeMutex.acquireIfChanged(newData, compareFunction)`: with
no stored baseline, always acquire, record `newData`, return `true`;
otherwise apply `compareFunction` to the baseline and `newData` — if
they are judged different, acquire, record `newData`, return `true`,
else return `false` untouched. -/
def DCMState.acquireIfChanged {T : Type} (s : DCMState T) (w : Nat)
    (newData : T) (cmp : Option T → T → Bool) : DCMState T × Bool :=
  match s.lastData with
  | none =>
    ({ mutex := (s.mutex.acquire w).1, lastData := some newData }, true)
  | some _ =>
    if !cmp s.lastData newData then
      ({ mutex := (s.mutex.acquire w).1, lastData := some newData }, true)
    else
      (s, false)

/-- `DataChangeMutex.releaseWithData(clearData = false)`: optionally
clear the baseline, then release the underlying mutex. -/
def DCMState.releaseWithData {T : Type} (s : DCMState T) (clearData : Bool) :
    DCMState T × Option Nat :=
  let s1 := if clearData then { s with lastData := none } else s
  let r := s1.mutex.release
  ({ s1 with mutex := r.1 }, r.2)

/-- `DataChangeMutex.getLastData()`. -/
def DCMState.getLastData {T : Type} (s : DCMState T) : Option T := s.lastData

/-- One client-visible operation on a `DataChangeMutex`. -/
inductive DCMOp (T : Type) where
  | acq (w : Nat) (d : T) (cmp : Option T → T → Bool)
  | relData (clearData : Bool)

/-- Run a sequence of operations, collecting for each one the success
flag: for `acquireIfChanged` its returned boolean, for
`releaseWithData` the constant `false`. -/
def runDCMTrace {T : Type} (s : DCMState T) :
    List (DCMOp T) → DCMState T × List Bool
  | [] => (s, [])
  | op :: ops =>
    match op with
    | .acq w d cmp =>
      let p := s.acquireIfChanged w d cmp
      let q := runDCMTrace p.1 ops
      (q.1, p.2 :: q.2)
    | .relData c =>
      let p := s.releaseWithData c
      let q := runDCMTrace p.1 ops
      (q.1, false :: q.2)

/-- Modelled from the spec: "`lastData` reflects the value associated
with the most recent successful acquisition; absent only before the
first acquisition or after an explicit clear."  Folds over the
operations annotated with their success flags: a successful
`acquireIfChanged` installs its data, `releaseWithData(true)` clears,
everything else leaves the tracked value alone. -/
def specLastData {T : Type} : Option T → List (DCMOp T) → List Bool → Option T
  | acc, [], _ => acc
  | acc, _, [] => acc
  | acc, op :: ops, res :: ress =>
    specLastData
      (match op with
        | .acq _ d _ => if res then some d else acc
        | .relData c => if c then none else acc)
      ops ress

/-- JavaScript runtime values that can appear as `DataChangeMutex`
data, as far as `defaultCompare` and `JSON.stringify` observe them. -/
inductive JSValue where
  | vNull
  | vBool (b : Bool)
  | vNum (n : Int)
  | vStr (s : String)
  | vArr (elems : List JSValue)
  | vObj (fields : List (String × JSValue))

/-- JavaScript `typeof` (note `typeof null === 'object'`). -/
def typeof : JSValue → String
  | .vNull => "object"
  | .vBool _ => "boolean"
  | .vNum _ => "number"
  | .vStr _ => "string"
  | .vArr _ => "object"
  | .vObj _ => "object"

/-- Is the value the JavaScript `null`? -/
def isNullV : JSValue → Bool
  | .vNull => true
  | _ => false

/-- Primitive values (`boolean`, `number`, `string`). -/
def isPrimitiveV : JSValue → Bool
  | .vBool _ => true
  | .vNum _ => true
  | .vStr _ => true
  | _ => false

/-- Non-null values of `typeof` `'object'` (objects and arrays). -/
def isNonNullObject : JSValue → Bool
  | .vArr _ => true
  | .vObj _ => true
  | _ => false

/-- JSON string escaping for one character (quote and backslash; the
claims do not depend on control-character escaping). -/
def escapeChar (c : Char) : String :=
  if c = '"' then "\\\"" else if c = '\\' then "\\\\" else String.singleton c

/-- Escape the characters of a string for a JSON string literal. -/
def escapeStr (s : String) : String :=
  String.join (s.toList.map escapeChar)

/-- A JSON string literal. -/
def quoteStr (s : String) : String :=
  "\"" ++ escapeStr s ++ "\""

mutual

/-- `JSON.stringify`: objects serialize their fields in insertion
order, so the output string is sensitive to key order. -/
def stringify : JSValue → String
  | .vNull => "null"
  | .vBool b => cond b "true" "false"
  | .vNum n => toString n
  | .vStr s => quoteStr s
  | .vArr elems => "[" ++ String.intercalate "," (stringifyList elems) ++ "]"
  | .vObj fields =>
    "\x7b" ++ String.intercalate "," (stringifyFields fields) ++ "\x7d"

/-- Serialize array elements. -/
def stringifyList : List JSValue → List String
  | [] => []
  | v :: vs => stringify v :: stringifyList vs

/-- Serialize object fields as `"key":value`. -/
def stringifyFields : List (String × JSValue) → List String
  | [] => []
  | (k, v) :: fs => (quoteStr k ++ ":" ++ stringify v) :: stringifyFields fs

end

/-- JavaScript `===` restricted to the values that can reach the final
line of `defaultCompare` (primitives; objects never reach it there, and
distinct object references compare unequal). -/
def jsStrictEq : JSValue → JSValue → Bool
  | .vBool x, .vBool y => x == y
  | .vNum x, .vNum y => x == y
  | .vStr x, .vStr y => x == y
  | _, _ => false

/-- `defaultCompare(a, b)` of `data-change-mutex.ts`: `false` for a
null `a`; `false` on differing `typeof`; `JSON.stringify` equality for
non-null objects; `===` otherwise. -/
def defaultCompare (a b : JSValue) : Bool :=
  if isNullV a then false
  else if typeof a != typeof b then false
  else if typeof a == "object" && !(isNullV a) then stringify a == stringify b
  else jsStrictEq a b

/-- `defaultCompare` as `acquireIfChanged` invokes it on the stored
`lastData : T | null` (an absent baseline is the JavaScript `null`). -/
def defaultCompareOpt (a : Option JSValue) (b : JSValue) : Bool :=
  defaultCompare (a.getD JSValue.vNull) b

/-! ## Theorems -/

theorem acquireSeq_locked (q : List Nat) (ws : List Nat) :
    acquireSeq ⟨true, q⟩ ws =
      (⟨true, q ++ ws⟩, List.replicate ws.length false) := by
  induction ws generalizing q with
  | nil => simp [acquireSeq]
  | cons w ws ih =>
    simp [acquireSeq, MutexState.acquire, ih (q ++ [w]), List.replicate]

theorem releaseSeq_le (l : Bool) (q : List Nat) (k : Nat) (hk : k ≤ q.length) :
    releaseSeq ⟨l, q⟩ k = (⟨l, q.drop k⟩, q.take k) := by
  induction k generalizing q with
  | zero => simp [releaseSeq]
  | succ k ih =>
    match q with
    | [] => exact absurd hk (by simp)
    | r :: rest =>
      simp only [releaseSeq, MutexState.release]
      rw [ih rest (by simpa using hk)]
      simp

theorem range'_take (k : Nat) : ∀ s m : Nat, k ≤ m →
    (List.range' s m).take k = List.range' s k := by
  induction k with
  | zero => intro s m _; simp
  | succ k ih =>
    intro s m h
    match m with
    | 0 => exact absurd h (by simp)
    | m + 1 =>
      rw [List.range'_succ, List.range'_succ]
      simp [ih (s + 1) m (Nat.le_of_succ_le_succ h)]

/-- C1: a sequence of `N` `acquire()` calls (waiters `0,…,N−1`) on a
fresh `Mutex` resolves exactly the first call synchronously (the lock
becomes held) and suspends the other `N−1` in arrival order; for every
`k ≤ N−1`, `k` subsequent `release()` calls resume exactly the waiters
`1,…,k`, one per release, in FIFO order, the lock staying held. -/
theorem mutex_fifo_service (N : Nat) (hN : 1 ≤ N) :
    (acquireSeq MutexState.fresh (List.range N)).2
        = true :: List.replicate (N - 1) false
    ∧ (acquireSeq MutexState.fresh (List.range N)).1
        = ⟨true, List.range' 1 (N - 1)⟩
    ∧ (∀ k, k ≤ N - 1 →
        (releaseSeq (acquireSeq MutexState.fresh (List.range N)).1 k).2
            = List.range' 1 k
        ∧ (releaseSeq (acquireSeq MutexState.fresh (List.range N)).1 k).1.locked
            = true) := by
  obtain ⟨m, rfl⟩ : ∃ m, N = m + 1 := ⟨N - 1, (Nat.succ_pred_eq_of_pos hN).symm⟩
  have hrange : List.range (m + 1) = 0 :: List.range' 1 m := by
    rw [List.range_eq_range', List.range'_succ]
  have hacq : acquireSeq MutexState.fresh (List.range (m + 1))
      = (⟨true, List.range' 1 m⟩, true :: List.replicate m false) := by
    rw [hrange]
    simp [acquireSeq, MutexState.fresh, MutexState.acquire, acquireSeq_locked]
  refine ⟨by rw [hacq]; simp, by rw [hacq]; simp, ?_⟩
  intro k hk
  have hk' : k ≤ (List.range' 1 m).length := by simpa using hk
  rw [hacq]
  simp only
  rw [releaseSeq_le true _ k hk']
  exact ⟨range'_take k 1 m (by simpa using hk), rfl⟩

/-- C1 witness: `N = 3`. -/
theorem mutex_fifo_service_witness :
    (acquireSeq MutexState.fresh (List.range 3)).2
        = true :: List.replicate 2 false
    ∧ (releaseSeq (acquireSeq MutexState.fresh (List.range 3)).1 2).2
        = List.range' 1 2 := by
  have h := mutex_fifo_service 3 (by decide)
  exact ⟨h.1, (h.2.2 2 (by decide)).1⟩

/-- C2: `Mutex.release()` with a non-empty wait queue shifts the
earliest waiter and resumes it, touching nothing else — in particular
the `locked` flag is left exactly as it was, so a held lock never
passes through an unlocked state on this path; with an empty wait queue
it clears `locked`. -/
theorem mutex_release_cases (s : MutexState) :
    (∀ r rest, s.waitQueue = r :: rest →
        s.release = ({ s with waitQueue := rest }, some r))
    ∧ (s.waitQueue = [] → s.release = (⟨false, []⟩, none)) := by
  refine ⟨fun r rest h => by simp [MutexState.release, h], fun h => ?_⟩
  cases s with
  | mk l q => cases h; simp [MutexState.release]

/-- C2 witness: a held lock with waiters `[5, 7]`, and a held lock with
no waiters. -/
theorem mutex_release_cases_witness :
    MutexState.release ⟨true, [5, 7]⟩ = (⟨true, [7]⟩, some 5)
    ∧ MutexState.release ⟨true, []⟩ = (⟨false, []⟩, none) :=
  ⟨(mutex_release_cases ⟨true, [5, 7]⟩).1 5 [7] rfl,
   (mutex_release_cases ⟨true, []⟩).2 rfl⟩

theorem semAcquireSeq_avail (ws : List Nat) : ∀ p : Nat, ws.length ≤ p →
    semAcquireSeq ⟨p, []⟩ ws
      = (⟨p - ws.length, []⟩, List.replicate ws.length true) := by
  induction ws with
  | nil => intro p _; simp [semAcquireSeq]
  | cons w ws ih =>
    intro p h
    have hp : 0 < p := lt_of_lt_of_le (Nat.succ_pos _) (by simpa using h)
    simp only [semAcquireSeq, SemState.acquire, if_pos hp]
    rw [ih (p - 1) (by simp at h; omega)]
    have h2 : p - 1 - ws.length = p - (ws.length + 1) := by omega
    simp [List.replicate, h2]

theorem semAcquireSeq_exhausted (ws : List Nat) : ∀ q : List Nat,
    semAcquireSeq ⟨0, q⟩ ws
      = (⟨0, q ++ ws⟩, List.replicate ws.length false) := by
  induction ws with
  | nil => intro q; simp [semAcquireSeq]
  | cons w ws ih =>
    intro q
    simp [semAcquireSeq, SemState.acquire, ih (q ++ [w]), List.replicate]

theorem semAcquireSeq_append (l₁ l₂ : List Nat) (s : SemState) :
    semAcquireSeq s (l₁ ++ l₂)
      = ((semAcquireSeq (semAcquireSeq s l₁).1 l₂).1,
         (semAcquireSeq s l₁).2 ++ (semAcquireSeq (semAcquireSeq s l₁).1 l₂).2) := by
  induction l₁ generalizing s with
  | nil => simp [semAcquireSeq]
  | cons w ws ih => simp [semAcquireSeq, ih]

theorem semReleaseSeq_le (p : Nat) (q : List Nat) (k : Nat) (hk : k ≤ q.length) :
    semReleaseSeq ⟨p, q⟩ k = (⟨p, q.drop k⟩, q.take k) := by
  induction k generalizing q with
  | zero => simp [semReleaseSeq]
  | succ k ih =>
    match q with
    | [] => exact absurd hk (by simp)
    | r :: rest =>
      simp only [semReleaseSeq, SemState.release]
      rw [ih rest (by simpa using hk)]
      simp

/-- C4: on a fresh `Semaphore` of capacity `C ≥ 1`, each of the first
`C` `acquire()` calls resolves immediately, the permit count dropping
to `C − i` after `i` of them; with `N > C` acquirers (ids `0,…,N−1`)
the first `C` are admitted and the rest queued, `availablePermits()`
reads `0`, and each subsequent `release()` admits one queued acquirer
in original request order (`C, C+1, …`). -/
theorem semaphore_admission (C N : Nat) (hC : 1 ≤ C) (hN : C < N) :
    (∀ i, i ≤ C →
        semAcquireSeq (SemState.fresh C) (List.range i)
          = (⟨C - i, []⟩, List.replicate i true))
    ∧ (semAcquireSeq (SemState.fresh C) (List.range N)).2
        = List.replicate C true ++ List.replicate (N - C) false
    ∧ (semAcquireSeq (SemState.fresh C) (List.range N)).1
        = ⟨0, List.range' C (N - C)⟩
    ∧ (semAcquireSeq (SemState.fresh C) (List.range N)).1.availablePermits = 0
    ∧ (∀ k, k ≤ N - C →
        (semReleaseSeq (semAcquireSeq (SemState.fresh C) (List.range N)).1 k).2
          = List.range' C k) := by
  have hsplit : List.range N = List.range C ++ List.range' C (N - C) := by
    obtain ⟨d, rfl⟩ : ∃ d, N = C + d := ⟨N - C, (Nat.add_sub_cancel' hN.le).symm⟩
    rw [List.range_eq_range', List.range_eq_range', Nat.add_sub_cancel_left]
    have h := List.range'_append_1 0 C d
    rw [Nat.zero_add] at h
    rw [h, Nat.add_comm]
  have hfirst : semAcquireSeq (SemState.fresh C) (List.range C)
      = (⟨0, []⟩, List.replicate C true) := by
    have := semAcquireSeq_avail (List.range C) C (by simp)
    simpa [SemState.fresh] using this
  have hmain : semAcquireSeq (SemState.fresh C) (List.range N)
      = (⟨0, List.range' C (N - C)⟩,
         List.replicate C true ++ List.replicate (N - C) false) := by
    rw [hsplit, semAcquireSeq_append, hfirst]
    simp [semAcquireSeq_exhausted]
  refine ⟨?_, by rw [hmain], by rw [hmain], by rw [hmain]; rfl, ?_⟩
  · intro i hi
    have := semAcquireSeq_avail (List.range i) C (by simpa using hi)
    simpa [SemState.fresh] using this
  · intro k hk
    rw [hmain]
    simp only
    rw [semReleaseSeq_le 0 _ k (by simpa using hk)]
    exact range'_take k C (N - C) hk

/-- C4 witness: capacity 3, five acquirers. -/
theorem semaphore_admission_witness :
    (semAcquireSeq (SemState.fresh 3) (List.range 5)).2
        = List.replicate 3 true ++ List.replicate 2 false
    ∧ (semAcquireSeq (SemState.fresh 3) (List.range 5)).1.availablePermits = 0
    ∧ (semReleaseSeq (semAcquireSeq (SemState.fresh 3) (List.range 5)).1 2).2
        = List.range' 3 2 := by
  have h := semaphore_admission 3 5 (by decide) (by decide)
  exact ⟨h.2.1, h.2.2.2.1, h.2.2.2.2 2 (by decide)⟩

theorem semStep_inv {C a r : Nat} {s : SemState} (h : SemInv C a r s) :
    ∀ op : SemOp,
      SemInv C (a + acqCount [op]) (r + relCount [op]) (semStep s op) := by
  obtain ⟨hq, hbal⟩ := h
  intro op
  match op with
  | .acq w =>
    have hA : acqCount [SemOp.acq w] = 1 := rfl
    have hR : relCount [SemOp.acq w] = 0 := rfl
    rw [hA, hR]
    simp only [semStep, SemState.acquire, SemInv]
    by_cases hp : 0 < s.permits
    · rw [if_pos hp]
      refine ⟨fun hne => ?_, by simp only; omega⟩
      exact absurd (hq hne) (by omega)
    · rw [if_neg hp]
      have hp0 : s.permits = 0 := by omega
      refine ⟨fun _ => hp0, by simp only [List.length_append, List.length_cons,
        List.length_nil, hp0]; omega⟩
  | .rel =>
    have hA : acqCount [SemOp.rel] = 0 := rfl
    have hR : relCount [SemOp.rel] = 1 := rfl
    rw [hA, hR]
    simp only [semStep, SemState.release, SemInv]
    match hqe : s.waitQueue with
    | x :: rest =>
      have hp0 : s.permits = 0 := hq (by rw [hqe]; simp)
      rw [hqe] at hbal
      simp only [List.length_cons] at hbal
      exact ⟨fun _ => hp0, by simp only; omega⟩
    | [] =>
      rw [hqe] at hbal
      simp only [List.length_nil] at hbal
      exact ⟨by simp, by simp only [List.length_nil]; omega⟩

theorem runSem_inv (C : Nat) (ops : List SemOp) : ∀ (s : SemState) (a r : Nat),
    SemInv C a r s →
    SemInv C (a + acqCount ops) (r + relCount ops) (runSem s ops) := by
  induction ops with
  | nil => intro s a r h; simpa [runSem, acqCount, relCount] using h
  | cons op ops ih =>
    intro s a r h
    have h1 := semStep_inv h op
    have h2 := ih (semStep s op) _ _ h1
    have ha : acqCount (op :: ops) = acqCount [op] + acqCount ops := by
      simp only [acqCount]
      rw [show op :: ops = [op] ++ ops from rfl, List.countP_append]
    have hr : relCount (op :: ops) = relCount [op] + relCount ops := by
      simp only [relCount]
      rw [show op :: ops = [op] ++ ops from rfl, List.countP_append]
    rw [ha, hr, ← Nat.add_assoc, ← Nat.add_assoc]
    simpa [runSem, List.foldl_cons] using h2

/-- C5 counterexample: the invariant as claimed fails for an unmatched
`release()`.  On a fresh capacity-1 semaphore, the single-operation
sequence `[release]` leaves an empty wait queue with `permits = 2 > 1`. -/
theorem semaphore_invariant_counterexample :
    (runSem (SemState.fresh 1) [SemOp.rel]).waitQueue = []
    ∧ ¬ (runSem (SemState.fresh 1) [SemOp.rel]).permits ≤ 1 := by decide

/-- C5 (amended): for every operation sequence in which `release()`
calls do not outnumber `acquire()` calls, the final state of a
capacity-`C` semaphore satisfies `permits ≤ C` when the wait queue is
empty; and for *every* sequence, a non-empty wait queue forces
`permits = 0` (and `permits ≥ 0` holds trivially). -/
theorem semaphore_invariant (C : Nat) (ops : List SemOp) :
    ((runSem (SemState.fresh C) ops).waitQueue ≠ [] →
        (runSem (SemState.fresh C) ops).permits = 0)
    ∧ (relCount ops ≤ acqCount ops →
        (runSem (SemState.fresh C) ops).waitQueue = [] →
        (runSem (SemState.fresh C) ops).permits ≤ C) := by
  have h0 : SemInv C 0 0 (SemState.fresh C) := by
    refine ⟨fun h => absurd rfl h, by simp [SemState.fresh]⟩
  have h := runSem_inv C ops (SemState.fresh C) 0 0 h0
  obtain ⟨hq, hbal⟩ := h
  refine ⟨hq, fun hcnt hemp => ?_⟩
  rw [hemp] at hbal
  simp only [List.length_nil] at hbal
  omega

/-- C5 witness: capacity 2, two acquires then one release. -/
theorem semaphore_invariant_witness :
    (runSem (SemState.fresh 2) [SemOp.acq 0, SemOp.acq 1, SemOp.rel]).permits ≤ 2 :=
  (semaphore_invariant 2 [SemOp.acq 0, SemOp.acq 1, SemOp.rel]).2
    (by decide) (by decide)

/-- C6 counterexample: `Semaphore.release()` with all permits available
is *not* a state-preserving no-op — on a fresh capacity-1 semaphore it
increments `permits` to 2. -/
theorem idle_release_counterexample :
    SemState.release ⟨1, []⟩ = (⟨2, []⟩, none)
    ∧ (⟨2, []⟩ : SemState) ≠ ⟨1, []⟩ := by decide

/-- C6 (amended): `Mutex.release()` on an unlocked mutex with an empty
queue is a silent no-op — state unchanged, no waiter resumed, no error
raised; `Semaphore.release()` with an empty wait queue likewise resumes
no waiter and raises no error, but it increments the permit count (even
past the constructed capacity), so it is not state-preserving. -/
theorem idle_release (p : Nat) :
    MutexState.release ⟨false, []⟩ = (⟨false, []⟩, none)
    ∧ SemState.release ⟨p, []⟩ = (⟨p + 1, []⟩, none) :=
  ⟨rfl, rfl⟩

/-- C3: whatever `fn` does — return a value or throw — `withMutex`
returns exactly `fn`'s outcome (errors propagate, never swallowed) and
the lock is back to released: starting from an uncontended named mutex,
`isLocked()` is `false` after the call; `withSemaphore` likewise
restores the full permit count. -/
theorem with_helpers_release_on_all_paths {E A : Type}
    (s : MutexState) (t : SemState) (w : Nat) (fn : Except E A)
    (hs : s.locked = false) (hsq : s.waitQueue = [])
    (ht : t.waitQueue = []) (hp : 0 < t.permits) :
    withMutexRun s w fn = (⟨false, []⟩, fn)
    ∧ (withMutexRun s w fn).1.isLocked = false
    ∧ withSemaphoreRun t w fn = (⟨t.permits, []⟩, fn) := by
  obtain ⟨sl, sq⟩ := s
  obtain ⟨tp, tq⟩ := t
  cases hs; cases hsq; cases ht
  simp only at hp
  refine ⟨?_, ?_, ?_⟩
  · simp [withMutexRun, MutexState.acquire, MutexState.release]
  · simp [withMutexRun, MutexState.acquire, MutexState.release, MutexState.isLocked]
  · simp only [withSemaphoreRun, SemState.acquire, if_pos hp, SemState.release]
    have : tp - 1 + 1 = tp := by omega
    simp [this]

/-- C3 witness: a throwing `fn` on the fresh mutex and a capacity-3
semaphore — the error comes back unchanged and the primitives are
released. -/
theorem with_helpers_release_witness :
    withMutexRun (MutexState.fresh) 0 (Except.error "boom" : Except String Nat)
        = (⟨false, []⟩, Except.error "boom")
    ∧ withSemaphoreRun (SemState.fresh 3) 0 (Except.error "boom" : Except String Nat)
        = (⟨3, []⟩, Except.error "boom") := by
  have h := with_helpers_release_on_all_paths (MutexState.fresh) (SemState.fresh 3)
    0 (Except.error "boom" : Except String Nat) rfl rfl rfl (by decide)
  exact ⟨h.1, h.2.2⟩

/-- C7: `acquireIfChanged(newData, compareFn)` — with a stored baseline
judged equal to `newData` by `compareFn` (the default judges deep-equal
data equal), the call returns `false` with the whole state untouched:
no mutex acquire, hence no blocking; judged different, it performs the
mutex acquire, replaces the baseline with `newData`, and returns
`true`; with no baseline it always acquires, records `newData`, and
returns `true`.  When the underlying mutex is free the acquire resolves
synchronously, setting `locked` without queueing. -/
theorem acquire_if_changed_cases {T : Type} (s : DCMState T) (w : Nat)
    (d newData : T) (cmp : Option T → T → Bool) :
    (s.lastData = some d → cmp (some d) newData = true →
        s.acquireIfChanged w newData cmp = (s, false))
    ∧ (s.lastData = some d → cmp (some d) newData = false →
        s.acquireIfChanged w newData cmp
          = ({ mutex := (s.mutex.acquire w).1, lastData := some newData }, true))
    ∧ (s.lastData = none →
        s.acquireIfChanged w newData cmp
          = ({ mutex := (s.mutex.acquire w).1, lastData := some newData }, true))
    ∧ (s.mutex.locked = false →
        (s.mutex.acquire w).1.locked = true
        ∧ (s.mutex.acquire w).1.waitQueue = s.mutex.waitQueue) := by
  refine ⟨fun h1 h2 => ?_, fun h1 h2 => ?_, fun h1 => ?_, fun h1 => ?_⟩
  · simp [DCMState.acquireIfChanged, h1, h2]
  · simp [DCMState.acquireIfChanged, h1, h2]
  · simp [DCMState.acquireIfChanged, h1]
  · simp [MutexState.acquire, h1]

/-- C7 witness: baseline `{a: 1}` under the default comparison — a
deep-equal `{a: 1}` is skipped without touching the held lock, a
different `{a: 2}` acquires the free lock, and a fresh instance with no
baseline acquires. -/
theorem acquire_if_changed_cases_witness :
    DCMState.acquireIfChanged
        ⟨⟨true, []⟩, some (JSValue.vObj [("a", JSValue.vNum 1)])⟩ 0
        (JSValue.vObj [("a", JSValue.vNum 1)]) defaultCompareOpt
      = (⟨⟨true, []⟩, some (JSValue.vObj [("a", JSValue.vNum 1)])⟩, false)
    ∧ DCMState.acquireIfChanged
        ⟨⟨false, []⟩, some (JSValue.vObj [("a", JSValue.vNum 1)])⟩ 0
        (JSValue.vObj [("a", JSValue.vNum 2)]) defaultCompareOpt
      = (⟨⟨true, []⟩, some (JSValue.vObj [("a", JSValue.vNum 2)])⟩, true)
    ∧ DCMState.acquireIfChanged (DCMState.fresh JSValue) 0
        (JSValue.vObj [("a", JSValue.vNum 1)]) defaultCompareOpt
      = (⟨⟨true, []⟩, some (JSValue.vObj [("a", JSValue.vNum 1)])⟩, true) :=
  ⟨(acquire_if_changed_cases
      ⟨⟨true, []⟩, some (JSValue.vObj [("a", JSValue.vNum 1)])⟩ 0
      (JSValue.vObj [("a", JSValue.vNum 1)])
      (JSValue.vObj [("a", JSValue.vNum 1)]) defaultCompareOpt).1
      rfl (by decide),
   (acquire_if_changed_cases
      ⟨⟨false, []⟩, some (JSValue.vObj [("a", JSValue.vNum 1)])⟩ 0
      (JSValue.vObj [("a", JSValue.vNum 1)])
      (JSValue.vObj [("a", JSValue.vNum 2)]) defaultCompareOpt).2.1
      rfl (by decide),
   (acquire_if_changed_cases (DCMState.fresh JSValue) 0
      (JSValue.vObj [("a", JSValue.vNum 1)])
      (JSValue.vObj [("a", JSValue.vNum 1)]) defaultCompareOpt).2.2.1 rfl⟩

/-- C8: `releaseWithData(true)` resets the baseline to absent and
applies the underlying `Mutex.release` step, so a following
`acquireIfChanged(X)` — for every `X`, in particular one equal to the
pre-clear baseline, and every comparison function — returns `true` and
records `X`; `releaseWithData` with `clearData` false applies the
release step leaving the baseline unchanged. -/
theorem release_with_data_cases {T : Type} (s : DCMState T) (w : Nat)
    (X : T) (cmp : Option T → T → Bool) :
    (s.releaseWithData true).1.lastData = none
    ∧ (s.releaseWithData true).1.mutex = (s.mutex.release).1
    ∧ (s.releaseWithData true).2 = (s.mutex.release).2
    ∧ ((s.releaseWithData true).1.acquireIfChanged w X cmp).2 = true
    ∧ ((s.releaseWithData true).1.acquireIfChanged w X cmp).1.lastData = some X
    ∧ (s.releaseWithData false).1.lastData = s.lastData
    ∧ (s.releaseWithData false).1.mutex = (s.mutex.release).1
    ∧ (s.releaseWithData false).2 = (s.mutex.release).2 :=
  ⟨rfl, rfl, rfl, rfl, rfl, rfl, rfl, rfl⟩

theorem acquireIfChanged_lastData {T : Type} (s : DCMState T) (w : Nat)
    (d : T) (cmp : Option T → T → Bool) :
    (s.acquireIfChanged w d cmp).1.lastData
      = if (s.acquireIfChanged w d cmp).2 then some d else s.lastData := by
  cases h : s.lastData with
  | none => simp [DCMState.acquireIfChanged, h]
  | some x =>
    by_cases hc : cmp (some x) d <;>
      simp [DCMState.acquireIfChanged, h, hc]

theorem releaseWithData_lastData {T : Type} (s : DCMState T) (c : Bool) :
    (s.releaseWithData c).1.lastData = if c then none else s.lastData := by
  cases c <;> rfl

/-- C9: over every operation sequence, the stored `lastData` (as
`getLastData` returns it) equals the value tracked by the spec-side
`specLastData` fold: the data of the most recent `acquireIfChanged`
call that succeeded (returned `true`), absent (`none`) only before the
first successful acquisition or after a `releaseWithData(true)` clear
(a fresh instance starts the fold at `none`). -/
theorem dcm_lastData_invariant {T : Type} (ops : List (DCMOp T)) :
    ∀ s : DCMState T,
      (runDCMTrace s ops).1.getLastData
        = specLastData s.lastData ops (runDCMTrace s ops).2 := by
  induction ops with
  | nil => intro s; rfl
  | cons op ops ih =>
    intro s
    match op with
    | .acq w d cmp =>
      have h := acquireIfChanged_lastData s w d cmp
      simp only [runDCMTrace, specLastData]
      rw [ih, h]
    | .relData c =>
      have h := releaseWithData_lastData s c
      simp only [runDCMTrace, specLastData]
      rw [ih, h]

/-- C10: `defaultCompare` judges values of differing runtime `typeof`
unequal; two non-null objects (objects or arrays) equal exactly when
their `JSON.stringify` serializations are identical strings — hence
sensitive to object key order, as the concrete swapped-key pair at the
end shows; primitives equal exactly when strictly equal; and every
value unequal to an absent (`null`) baseline. -/
theorem default_compare_spec :
    (∀ a b : JSValue, typeof a ≠ typeof b → defaultCompare a b = false)
    ∧ (∀ a b : JSValue, isNonNullObject a = true → isNonNullObject b = true →
        (defaultCompare a b = true ↔ stringify a = stringify b))
    ∧ (∀ a b : JSValue, isPrimitiveV a = true → isPrimitiveV b = true →
        (defaultCompare a b = true ↔ a = b))
    ∧ (∀ b : JSValue, defaultCompare JSValue.vNull b = false)
    ∧ defaultCompare (JSValue.vObj [("a", JSValue.vNum 1), ("b", JSValue.vNum 2)])
        (JSValue.vObj [("b", JSValue.vNum 2), ("a", JSValue.vNum 1)]) = false := by
  refine ⟨?_, ?_, ?_, fun b => rfl, by decide⟩
  · intro a b h
    by_cases hn : isNullV a
    · simp [defaultCompare, hn]
    · have hb : (typeof a != typeof b) = true := by
        simpa using h
      simp [defaultCompare, hn, hb]
  · intro a b ha hb
    cases a <;> cases b <;>
      first
        | exact absurd ha Bool.false_ne_true
        | exact absurd hb Bool.false_ne_true
        | simp [defaultCompare, typeof, isNullV, beq_iff_eq]
  · intro a b ha hb
    cases a <;> cases b <;>
      first
        | exact absurd ha Bool.false_ne_true
        | exact absurd hb Bool.false_ne_true
        | simp [defaultCompare, typeof, isNullV, jsStrictEq, beq_iff_eq]

/-- C10 witness: a number and a string are unequal; deep-equal
singleton objects compare by identical serialization; `1` and `2` are
neither `===` nor judged equal; nothing equals a null baseline. -/
theorem default_compare_spec_witness :
    defaultCompare (JSValue.vNum 1) (JSValue.vStr "1") = false
    ∧ (defaultCompare (JSValue.vObj [("a", JSValue.vNum 1)])
        (JSValue.vObj [("a", JSValue.vNum 1)]) = true
        ↔ stringify (JSValue.vObj [("a", JSValue.vNum 1)])
            = stringify (JSValue.vObj [("a", JSValue.vNum 1)]))
    ∧ (defaultCompare (JSValue.vNum 1) (JSValue.vNum 2) = true
        ↔ (JSValue.vNum 1 : JSValue) = JSValue.vNum 2)
    ∧ defaultCompare JSValue.vNull (JSValue.vBool true) = false :=
  ⟨default_compare_spec.1 (JSValue.vNum 1) (JSValue.vStr "1") (by decide),
   default_compare_spec.2.1 _ _ rfl rfl,
   default_compare_spec.2.2.1 _ _ rfl rfl,
   default_compare_spec.2.2.2.1 (JSValue.vBool true)⟩

end Bdrax
